import Mathlib

/-!
Verification development for the ADT-manual-autocuidados utility scripts.

The scripts maintain per-language JSON "texts tables": flat mappings from
string keys (such as `text-<page>-<index>`) to string values.  We embed the
tables as association lists, Python `dict` operations as functions on them,
and each script's key loops as explicit folds or step relations.
-/

namespace ADT

/-! ## Association-list model of Python string-keyed dicts -/

abbrev Table := List (String × String)

/-- First-match lookup; `d[k]` / `k in d` on a Python dict. -/
def lookup : Table → String → Option String
  | [], _ => none
  | (k, v) :: rest, key => if k = key then some v else lookup rest key

/-- `key in d` for a Python dict. -/
def hasKey (d : Table) (key : String) : Bool := (lookup d key).isSome

/-- Overwrite the binding of a present key in place (Python keeps the key's
insertion position on reassignment). -/
def setValue : Table → String → String → Table
  | [], _, _ => []
  | (k, v) :: rest, key, val =>
    if k = key then (k, val) :: rest else (k, v) :: setValue rest key val

/-- Python `d[key] = val`: overwrite if present, else append at the end. -/
def dictSet (d : Table) (key val : String) : Table :=
  if hasKey d key then setValue d key val else d ++ [(key, val)]

/-- Python `old.update(new)` (`translate_gpt5.py` line 157,
`translate_page_range.py` line 150, `regenerate_text.py` line 311). -/
def dictUpdate (old new : Table) : Table :=
  new.foldl (fun acc kv => dictSet acc kv.1 kv.2) old

theorem lookup_eq_none_iff (d : Table) (key : String) :
    lookup d key = none ↔ key ∉ d.map Prod.fst := by
  induction d with
  | nil => simp [lookup]
  | cons kv rest ih =>
    obtain ⟨k, v⟩ := kv
    by_cases h : k = key
    · subst h
      simp [lookup]
    · simp [lookup, h, ih, Ne.symm h]

theorem lookup_setValue_self (d : Table) (key val : String) (h : hasKey d key = true) :
    lookup (setValue d key val) key = some val := by
  induction d with
  | nil => simp [hasKey, lookup] at h
  | cons kv rest ih =>
    obtain ⟨k, v⟩ := kv
    by_cases hk : k = key
    · subst hk
      simp [setValue, lookup]
    · have h' : hasKey rest key = true := by
        simpa [hasKey, lookup, hk] using h
      simp [setValue, lookup, hk, ih h']

theorem lookup_setValue_ne (d : Table) (key val key' : String) (h : key' ≠ key) :
    lookup (setValue d key val) key' = lookup d key' := by
  induction d with
  | nil => simp [setValue]
  | cons kv rest ih =>
    obtain ⟨k, v⟩ := kv
    by_cases hk : k = key
    · subst hk
      simp [setValue, lookup, Ne.symm h]
    · simp only [setValue, if_neg hk, lookup]
      by_cases hk' : k = key'
      · simp [hk']
      · simp [hk', ih]

theorem lookup_append (d₁ d₂ : Table) (key : String) :
    lookup (d₁ ++ d₂) key =
      match lookup d₁ key with
      | some v => some v
      | none => lookup d₂ key := by
  induction d₁ with
  | nil => simp [lookup]
  | cons kv rest ih =>
    obtain ⟨k, v⟩ := kv
    by_cases hk : k = key
    · simp [lookup, hk]
    · simp [lookup, hk, ih]

theorem lookup_dictSet_self (d : Table) (key val : String) :
    lookup (dictSet d key val) key = some val := by
  unfold dictSet
  by_cases h : hasKey d key = true
  · simp [h, lookup_setValue_self d key val h]
  · have hnone : lookup d key = none := by
      cases hl : lookup d key with
      | none => rfl
      | some v => exact absurd (by simp [hasKey, hl]) h
    simp [h, lookup_append, hnone, lookup]

theorem lookup_dictSet_ne (d : Table) (key val key' : String) (h : key' ≠ key) :
    lookup (dictSet d key val) key' = lookup d key' := by
  unfold dictSet
  by_cases hk : hasKey d key = true
  · simp [hk, lookup_setValue_ne d key val key' h]
  · have hne : ¬key = key' := fun hh => h hh.symm
    simp only [hk, Bool.false_eq_true, if_false, lookup_append]
    cases hl : lookup d key' with
    | none => simp [lookup, hne]
    | some v => rfl

/-- Lookup in a `dict.update`: bindings of `new` win, all other keys keep
their old value. -/
theorem lookup_dictUpdate (old new : Table) (hnd : (new.map Prod.fst).Nodup)
    (key : String) :
    lookup (dictUpdate old new) key =
      match lookup new key with
      | some v => some v
      | none => lookup old key := by
  induction new generalizing old with
  | nil => rfl
  | cons kv rest ih =>
    obtain ⟨k, v⟩ := kv
    simp only [List.map_cons, List.nodup_cons] at hnd
    obtain ⟨hk, hrest⟩ := hnd
    have hstep : dictUpdate old ((k, v) :: rest) = dictUpdate (dictSet old k v) rest := rfl
    rw [hstep, ih (dictSet old k v) hrest]
    by_cases hkey : k = key
    · subst hkey
      have hnone : lookup rest k = none := (lookup_eq_none_iff rest k).mpr hk
      simp [lookup, hnone, lookup_dictSet_self]
    · simp only [lookup, if_neg hkey]
      cases hl : lookup rest key with
      | none => simp [lookup_dictSet_ne old k v key (fun hh => hkey hh.symm)]
      | some w => rfl

/-! ## C1: merging new translations into an existing table -/

/-- `merge_with_existing_english` from `translate_gpt5.py` (lines 150–159) and
`translate_page_range.py` (lines 143–152): load the existing English table
(`{}` when the file is missing or malformed) and `update` it with the new
translations. -/
def merge_with_existing_english (new_translations : Table)
    (existing_english : Option Table) : Table :=
  dictUpdate (existing_english.getD []) new_translations

/-- The merge step of `TextRegenerator.save_generated_texts`
(`regenerate_text.py` lines 296–322): load the existing table (`{}` when the
file does not exist) and `update` it with the generated texts. -/
def save_generated_texts_table (existing_texts : Option Table)
    (generated_texts : Table) : Table :=
  dictUpdate (existing_texts.getD []) generated_texts

/-- C1: merging new translations into an existing table maps every key absent
from the new translations to its original value and every key present in the
new translations to its new value — for both `merge_with_existing_english`
and the merge step of `save_generated_texts`. -/
theorem merge_preserves_untouched_keys
    (new_translations existing generated : Table)
    (hnd : (new_translations.map Prod.fst).Nodup)
    (hndg : (generated.map Prod.fst).Nodup) :
    (∀ key, lookup new_translations key = none →
      lookup (merge_with_existing_english new_translations (some existing)) key
        = lookup existing key) ∧
    (∀ key val, lookup new_translations key = some val →
      lookup (merge_with_existing_english new_translations (some existing)) key
        = some val) ∧
    (∀ key, lookup generated key = none →
      lookup (save_generated_texts_table (some existing) generated) key
        = lookup existing key) ∧
    (∀ key val, lookup generated key = some val →
      lookup (save_generated_texts_table (some existing) generated) key
        = some val) := by
  refine ⟨?_, ?_, ?_, ?_⟩
  · intro key h
    rw [merge_with_existing_english, Option.getD, lookup_dictUpdate _ _ hnd, h]
  · intro key val h
    rw [merge_with_existing_english, Option.getD, lookup_dictUpdate _ _ hnd, h]
  · intro key h
    rw [save_generated_texts_table, Option.getD, lookup_dictUpdate _ _ hndg, h]
  · intro key val h
    rw [save_generated_texts_table, Option.getD, lookup_dictUpdate _ _ hndg, h]

/-- Witness for C1 at a concrete table: key `text-2-0` is untouched, key
`text-1-0` is overwritten. -/
theorem merge_preserves_untouched_keys_witness :
    lookup (merge_with_existing_english [("text-1-0", "new")]
      (some [("text-1-0", "old"), ("text-2-0", "keep")])) "text-2-0" = some "keep" ∧
    lookup (merge_with_existing_english [("text-1-0", "new")]
      (some [("text-1-0", "old"), ("text-2-0", "keep")])) "text-1-0" = some "new" := by
  have h := merge_preserves_untouched_keys [("text-1-0", "new")]
    [("text-1-0", "old"), ("text-2-0", "keep")] [] (by decide) (by decide)
  exact ⟨h.1 "text-2-0" (by decide), h.2.1 "text-1-0" "new" (by decide)⟩

/-! ## Character-level helpers shared by the scripts

The scripts work on Python strings; we model the string operations they use
(`startswith`, `split`, `strip`, `replace`, `int(...)`) at the level of the
underlying character lists, which Lean can evaluate inside proofs. -/

/-- Python `str.strip()` whitespace (the ASCII cases). -/
def isPySpace (c : Char) : Bool :=
  c = ' ' || c = '\t' || c = '\n' || c = '\r' || c = Char.ofNat 11 || c = Char.ofNat 12

/-- Python `s.strip()` on the character list of `s`. -/
def pyTrim (cs : List Char) : List Char :=
  ((cs.dropWhile isPySpace).reverse.dropWhile isPySpace).reverse

/-- Numeric value of an ASCII digit sequence. -/
def natOfDigits (a : List Char) : Nat := a.foldl (fun n c => n * 10 + (c.toNat - 48)) 0

/-- `str.replace(pat, rep)` scanning after a nonempty pattern head; the
fuel argument (instantiated to the input length, an upper bound on the
number of scanning steps) keeps the recursion structural. -/
def replaceGo (p : Char) (ps rep : List Char) : Nat → List Char → List Char
  | 0, cs => cs
  | _ + 1, [] => []
  | fuel + 1, c :: cs =>
    if (p :: ps).isPrefixOf (c :: cs) then rep ++ replaceGo p ps rep fuel (cs.drop ps.length)
    else c :: replaceGo p ps rep fuel cs

/-- Python `s.replace(pat, rep)`: replace non-overlapping occurrences left to
right.  (The empty-pattern case, unused by the scripts, is the identity.) -/
def replaceChars (pat rep cs : List Char) : List Char :=
  match pat with
  | [] => cs
  | p :: ps => replaceGo p ps rep cs.length cs

/-! ## C2: key-pattern selection -/

/-- The anchored regex `^text-(\d+)-(\d+)$` used by `translate_gpt5.py`
(line 108), `find_pages.py` (line 22) and `calculate_timecodes_prog.py`
(line 103); on a match it returns the two captured numbers (ASCII digits). -/
def matchTextKey (key : String) : Option (Nat × Nat) :=
  if ("text-".data).isPrefixOf key.data then
    match List.splitOn '-' (key.data.drop 5) with
    | [a, b] =>
      if !a.isEmpty && a.all Char.isDigit && !b.isEmpty && b.all Char.isDigit then
        some (natOfDigits a, natOfDigits b)
      else none
    | _ => none
  else none

/-- `extract_page_range_texts` from `translate_gpt5.py` (lines 94–122):
collect keys matching `^text-(\d+)-(\d+)$` with page inside
`[page_start, page_end]`, sort by (page, index), and rebuild the sub-table
`extracted_texts[key] = spanish_data[key]` in that order. -/
def extract_page_range_texts (spanish_data : Table) (page_start page_end : Nat) :
    Table :=
  ((spanish_data.filterMap (fun kv =>
      match matchTextKey kv.1 with
      | some (p, t) =>
        if page_start ≤ p && p ≤ page_end then some (p, t, kv.1) else none
      | none => none)).mergeSort
    (fun x y => x.1 < y.1 || (x.1 == y.1 && x.2.1 ≤ y.2.1))).foldl
    (fun acc x => dictSet acc x.2.2 ((lookup spanish_data x.2.2).getD "")) []

/-- The selection in `calculate_timecodes_prog.py` line 106:
`[k for k in texts.keys() if valid_key_pattern.match(k)]`. -/
def timecode_matching_keys (texts : Table) : List String :=
  (texts.map Prod.fst).filter (fun k => (matchTextKey k).isSome)

/-- Digit tail of a Python `int()` literal: digits with single underscores
allowed between digits. -/
def pyDigitsGo : List Char → Nat → Option Nat
  | [], acc => some acc
  | '_' :: c :: rest, acc =>
    if c.isDigit then pyDigitsGo rest (acc * 10 + (c.toNat - 48)) else none
  | ['_'], _ => none
  | c :: rest, acc =>
    if c.isDigit then pyDigitsGo rest (acc * 10 + (c.toNat - 48)) else none

/-- Python `int(s)`: optional surrounding whitespace, optional sign, then a
nonempty digit sequence (single underscores permitted between digits);
`none` models the `ValueError` the scripts catch. -/
def pyInt (cs : List Char) : Option Int :=
  match pyTrim cs with
  | '+' :: c :: rest =>
    if c.isDigit then (pyDigitsGo rest (c.toNat - 48)).map Int.ofNat else none
  | '-' :: c :: rest =>
    if c.isDigit then (pyDigitsGo rest (c.toNat - 48)).map (fun n => -(Int.ofNat n))
    else none
  | c :: rest =>
    if c.isDigit then (pyDigitsGo rest (c.toNat - 48)).map Int.ofNat else none
  | [] => none

/-- One iteration of the loop of
`TextRegenerator.filter_texts_by_page_range_and_type` (`regenerate_text.py`
lines 80–98): the target key under which the text is filed when the source
key is selected, `none` when the key is skipped (including the
`ValueError`/`IndexError` catch). -/
def regenTarget (key : String) (start_page end_page : Int) (text_type : String) :
    Option String :=
  if ("text-".data).isPrefixOf key.data then
    if 2 ≤ (List.splitOn '-' key.data).length then
      match pyInt ((List.splitOn '-' key.data).getD 1 []) with
      | some page_num =>
        if start_page ≤ page_num && page_num ≤ end_page then
          if text_type = "easyread" then some (String.mk ("easyread-".data ++ key.data))
          else if text_type = "eli5" then
            some (String.mk ("sectioneli5-".data ++ replaceChars "text-".data [] key.data))
          else none
        else none
      | none => none
    else none
  else none

/-- `TextRegenerator.filter_texts_by_page_range_and_type`
(`regenerate_text.py` lines 74–102). -/
def filter_texts_by_page_range_and_type (texts : Table)
    (start_page end_page : Int) (text_type : String) : Table :=
  texts.foldl (fun filtered kv =>
    match regenTarget kv.1 start_page end_page text_type with
    | some target_key => dictSet filtered target_key kv.2
    | none => filtered) []

theorem hasKey_nil (key : String) : hasKey [] key = false := rfl

theorem hasKey_iff_mem (d : Table) (key : String) :
    hasKey d key = true ↔ key ∈ d.map Prod.fst := by
  rw [hasKey, Option.isSome_iff_ne_none, ne_eq, lookup_eq_none_iff, not_not]

theorem hasKey_dictSet (d : Table) (key val k : String) :
    hasKey (dictSet d key val) k = true ↔ k = key ∨ hasKey d k = true := by
  by_cases h : k = key
  · subst h
    simp [hasKey, lookup_dictSet_self]
  · simp [hasKey, lookup_dictSet_ne _ _ _ _ h, h]

theorem hasKey_foldl_dictSet (data : Table) (l : List (Nat × Nat × String))
    (d : Table) (k : String) :
    hasKey (l.foldl
        (fun acc x => dictSet acc x.2.2 ((lookup data x.2.2).getD "")) d) k = true ↔
      hasKey d k = true ∨ ∃ x ∈ l, x.2.2 = k := by
  induction l generalizing d with
  | nil => simp
  | cons x rest ih =>
    simp only [List.foldl_cons, ih, hasKey_dictSet, List.mem_cons]
    constructor
    · rintro (⟨h | h⟩ | h)
      · exact Or.inr ⟨x, Or.inl rfl, h.symm⟩
      · exact Or.inl h
      · obtain ⟨y, hy, hk⟩ := h
        exact Or.inr ⟨y, Or.inr hy, hk⟩
    · rintro (h | ⟨y, hy | hy, hk⟩)
      · exact Or.inl (Or.inr h)
      · subst hy
        exact Or.inl (Or.inl hk.symm)
      · exact Or.inr ⟨y, hy, hk⟩

/-- C2 counterexample: in `filter_texts_by_page_range_and_type` the key
`text-5` is selected (it yields the target `easyread-text-5`) although it
does not match `text-<digits>-<digits>`. -/
theorem regen_selects_nonmatching_key :
    matchTextKey "text-5" = none ∧
    filter_texts_by_page_range_and_type [("text-5", "hola")] 0 10 "easyread"
      = [("easyread-text-5", "hola")] := by
  constructor
  · decide
  · decide

theorem extract_mem_characterization (data : Table) (ps pe : Nat) (key : String) :
    hasKey (extract_page_range_texts data ps pe) key = true ↔
      hasKey data key = true ∧
        ∃ p t, matchTextKey key = some (p, t) ∧ ps ≤ p ∧ p ≤ pe := by
  unfold extract_page_range_texts
  rw [hasKey_foldl_dictSet]
  simp only [hasKey_nil, Bool.false_eq_true, false_or]
  constructor
  · rintro ⟨x, hx, hk⟩
    rw [(List.mergeSort_perm _ _).mem_iff, List.mem_filterMap] at hx
    obtain ⟨kv, hkv, hfx⟩ := hx
    rcases hm : matchTextKey kv.1 with _ | ⟨p, t⟩
    · simp [hm] at hfx
    · simp only [hm] at hfx
      by_cases hr : (decide (ps ≤ p) && decide (p ≤ pe)) = true
      · rw [if_pos hr] at hfx
        cases hfx
        simp only [Bool.and_eq_true, decide_eq_true_eq] at hr
        refine ⟨?_, p, t, hk ▸ hm, hr.1, hr.2⟩
        rw [hasKey_iff_mem]
        exact List.mem_map.mpr ⟨kv, hkv, hk⟩
      · rw [if_neg hr] at hfx
        simp at hfx
  · rintro ⟨hdata, p, t, hm, hp1, hp2⟩
    refine ⟨(p, t, key), ?_, rfl⟩
    rw [(List.mergeSort_perm _ _).mem_iff, List.mem_filterMap]
    rw [hasKey_iff_mem, List.mem_map] at hdata
    obtain ⟨kv, hkv, hkey⟩ := hdata
    refine ⟨kv, hkv, ?_⟩
    have hm' : matchTextKey kv.1 = some (p, t) := by rw [hkey]; exact hm
    simp only [hm', if_pos (show (decide (ps ≤ p) && decide (p ≤ pe)) = true by
      simp [hp1, hp2])]
    rw [hkey]

/-- C2 (amended): the regex-based scripts select a key iff it matches
`text-<digits>-<digits>` (page in range for the translation script), while
`filter_texts_by_page_range_and_type` selects a key iff it starts with
`text-` and its second dash-separated component parses as an integer in the
requested range — with no constraint on the rest of the key. -/
theorem key_selection_characterization :
    (∀ (data : Table) (ps pe : Nat) (key : String),
      hasKey (extract_page_range_texts data ps pe) key = true ↔
        hasKey data key = true ∧
          ∃ p t, matchTextKey key = some (p, t) ∧ ps ≤ p ∧ p ≤ pe) ∧
    (∀ (texts : Table) (key : String),
      key ∈ timecode_matching_keys texts ↔
        key ∈ texts.map Prod.fst ∧ (matchTextKey key).isSome = true) ∧
    (∀ (key : String) (sp ep : Int),
      (regenTarget key sp ep "easyread").isSome = true ↔
        ("text-".data).isPrefixOf key.data = true ∧
          2 ≤ (List.splitOn '-' key.data).length ∧
          ∃ n : Int, pyInt ((List.splitOn '-' key.data).getD 1 []) = some n ∧
            sp ≤ n ∧ n ≤ ep) := by
  refine ⟨extract_mem_characterization, ?_, ?_⟩
  · intro texts key
    simp [timecode_matching_keys, List.mem_filter]
  · intro key sp ep
    unfold regenTarget
    by_cases h1 : ("text-".data).isPrefixOf key.data = true
    case neg => simp [h1]
    rw [if_pos h1]
    by_cases h2 : 2 ≤ (List.splitOn '-' key.data).length
    case neg => simp [h1, h2]
    rw [if_pos h2]
    rcases hp : pyInt ((List.splitOn '-' key.data).getD 1 []) with _ | n
    · simp [h1, h2, hp]
    · by_cases hb1 : sp ≤ n
      · by_cases hb2 : n ≤ ep
        · simp [h1, h2, hp, hb1, hb2]
        · simp [h1, h2, hp, hb1, hb2]
      · simp [h1, h2, hp, hb1]

/-- Witness for C2 (amended) at concrete inputs. -/
theorem key_selection_characterization_witness :
    hasKey (extract_page_range_texts [("text-3-1", "hola"), ("intro", "x")] 2 4)
      "text-3-1" = true ∧
    "text-3-1" ∈ timecode_matching_keys [("text-3-1", "hola"), ("intro", "x")] ∧
    (regenTarget "text-5-x" 0 10 "easyread").isSome = true := by
  refine ⟨?_, ?_, ?_⟩
  · exact (key_selection_characterization.1 [("text-3-1", "hola"), ("intro", "x")]
      2 4 "text-3-1").mpr ⟨by decide, 3, 1, by decide, by decide, by decide⟩
  · exact (key_selection_characterization.2.1 [("text-3-1", "hola"), ("intro", "x")]
      "text-3-1").mpr ⟨by decide, by decide⟩
  · exact (key_selection_characterization.2.2 "text-5-x" 0 10).mpr
      ⟨by decide, by decide, 5, by decide, by decide, by decide⟩


/-! ## C3: per-item failure isolation in batch runs -/

/-- One stored alignment result of `calculate_timecodes_prog.py`
(lines 144–148): `{"text": ..., "audio": ..., "timecodes": ...}`. -/
structure TimecodeEntry where
  text : String
  audio : String
  timecodes : String
deriving DecidableEq

abbrev TimecodeResults := List (String × TimecodeEntry)

/-- `data_id in timecode_results`. -/
def hasId (results : TimecodeResults) (id : String) : Bool :=
  results.any (fun e => e.1 = id)

/-- `os.path.join(audio_folder, relative_audio_path)` for the cases the
script meets (POSIX, second component relative unless it starts with `/`). -/
def pyPathJoin (a b : String) : String :=
  if ("/".data).isPrefixOf b.data then b
  else if a.data.isEmpty || a.data.getLast? = some '/' then String.mk (a.data ++ b.data)
  else String.mk (a.data ++ '/' :: b.data)

/-- One iteration of the main loop of `calculate_timecodes_prog.py`
(lines 111–155) relative to the accumulated `results`: `none` when the item
is skipped (already processed, key not matching, audio path missing or the
alignment call raising) and `some` entry when the alignment succeeds. -/
def timecodeItem (align : String → String → Except String String)
    (audio_files : Table) (audioExists : String → Bool) (audio_folder : String)
    (results : TimecodeResults) (kv : String × String) :
    Option (String × TimecodeEntry) :=
  if hasId results kv.1 then none
  else if (matchTextKey kv.1).isNone then none
  else match lookup audio_files kv.1 with
    | none => none
    | some rel =>
      if rel = "" then none
      else
        let audio_path := pyPathJoin audio_folder rel
        if !audioExists audio_path then none
        else match align audio_path kv.2 with
          | .ok r => some (kv.1, ⟨kv.2, audio_path, r⟩)
          | .error _ => none

/-- The state change of one loop iteration: append the stored entry on
success, leave the results untouched on any skip or caught exception. -/
def timecodeStep (align : String → String → Except String String)
    (audio_files : Table) (audioExists : String → Bool) (audio_folder : String)
    (results : TimecodeResults) (kv : String × String) : TimecodeResults :=
  match timecodeItem align audio_files audioExists audio_folder results kv with
  | some e => results ++ [e]
  | none => results

/-- The whole main loop of `calculate_timecodes_prog.py` (lines 111–155). -/
def timecodeRun (align : String → String → Except String String)
    (audio_files : Table) (audioExists : String → Bool) (audio_folder : String)
    (initial : TimecodeResults) (texts : Table) : TimecodeResults :=
  texts.foldl (timecodeStep align audio_files audioExists audio_folder) initial

/-- `TextRegenerator.generate_text` (`regenerate_text.py` lines 203–245):
empty originals are skipped, an exception in the API call is caught and
yields `(target_key, "")`, a successful call yields the stripped content. -/
def generate_text (gen : String → String → String → Except String String)
    (original_text target_key text_type language : String) : String × String :=
  if (pyTrim original_text.data).isEmpty then (target_key, "")
  else
    match gen original_text text_type language with
    | .ok raw =>
      let generated := pyTrim raw.data
      if !generated.isEmpty then (target_key, String.mk generated) else (target_key, "")
    | .error _ => (target_key, "")

/-- The result-processing loop of
`TextRegenerator.regenerate_for_language_and_type` (`regenerate_text.py`
lines 277–292): count successes and failures and collect the nonempty
generated texts; `Except.error` models a task that came back from
`asyncio.gather(..., return_exceptions=True)` as an exception. -/
def regenProcessGo : List (Except String (String × String)) → Nat → Nat → Table →
    Nat × Nat × Table
  | [], successes, failures, generated => (successes, failures, generated)
  | .error _ :: rest, successes, failures, generated =>
    regenProcessGo rest successes (failures + 1) generated
  | .ok (key, text) :: rest, successes, failures, generated =>
    if text ≠ "" then regenProcessGo rest (successes + 1) failures (dictSet generated key text)
    else regenProcessGo rest successes (failures + 1) generated

def regenProcessResults (results : List (Except String (String × String))) :
    Nat × Nat × Table :=
  regenProcessGo results 0 0 []

def okKeyOf : Except String (String × String) → Option String
  | .ok kv => some kv.1
  | .error _ => none

theorem timecodeItem_congr (align : String → String → Except String String)
    (audio_files : Table) (audioExists : String → Bool) (audio_folder : String)
    (results initial : TimecodeResults) (kv : String × String)
    (h : hasId results kv.1 = hasId initial kv.1) :
    timecodeItem align audio_files audioExists audio_folder results kv
      = timecodeItem align audio_files audioExists audio_folder initial kv := by
  unfold timecodeItem
  rw [h]

theorem timecodeItem_key (align : String → String → Except String String)
    (audio_files : Table) (audioExists : String → Bool) (audio_folder : String)
    (results : TimecodeResults) (kv : String × String) (e : String × TimecodeEntry)
    (h : timecodeItem align audio_files audioExists audio_folder results kv = some e) :
    e.1 = kv.1 := by
  simp only [timecodeItem] at h
  repeat' split at h
  all_goals cases h
  rfl

theorem hasId_append (a b : TimecodeResults) (id : String) :
    hasId (a ++ b) id = (hasId a id || hasId b id) := by
  simp [hasId, List.any_append]

theorem timecodeRun_foldl (align : String → String → Except String String)
    (audio_files : Table) (audioExists : String → Bool) (audio_folder : String)
    (texts : Table) :
    ∀ (initial added : TimecodeResults),
      (∀ kv ∈ texts, hasId added kv.1 = false) →
      (texts.map Prod.fst).Nodup →
      texts.foldl (timecodeStep align audio_files audioExists audio_folder)
          (initial ++ added)
        = initial ++ added ++
            texts.filterMap
              (timecodeItem align audio_files audioExists audio_folder initial) := by
  induction texts with
  | nil =>
    intro initial added _ _
    simp
  | cons kv rest ih =>
    intro initial added hdisj hnd
    simp only [List.map_cons, List.nodup_cons] at hnd
    obtain ⟨hid, hndrest⟩ := hnd
    have hadd : hasId added kv.1 = false := hdisj kv (List.mem_cons_self _ _)
    have hcongr : timecodeItem align audio_files audioExists audio_folder
          (initial ++ added) kv
        = timecodeItem align audio_files audioExists audio_folder initial kv := by
      apply timecodeItem_congr
      rw [hasId_append, hadd, Bool.or_false]
    simp only [List.foldl_cons, List.filterMap_cons, timecodeStep, hcongr]
    cases hi : timecodeItem align audio_files audioExists audio_folder initial kv with
    | none =>
      exact ih initial added (fun kv' hkv' => hdisj kv' (List.mem_cons_of_mem _ hkv')) hndrest
    | some e =>
      simp only [List.append_assoc]
      rw [ih initial (added ++ [e]) ?_ hndrest]
      · simp
      · intro kv' hkv'
        have h1 : hasId added kv'.1 = false := hdisj kv' (List.mem_cons_of_mem _ hkv')
        have hek : e.1 = kv.1 :=
          timecodeItem_key align audio_files audioExists audio_folder initial kv e hi
        have hne : e.1 ≠ kv'.1 := by
          rw [hek]
          intro hc
          exact hid (hc ▸ List.mem_map_of_mem Prod.fst hkv')
        rw [hasId_append, h1]
        simp [hasId, hne]

theorem regenProcessGo_counts (results : List (Except String (String × String))) :
    ∀ s f g, (regenProcessGo results s f g).1 + (regenProcessGo results s f g).2.1
      = s + f + results.length := by
  induction results with
  | nil =>
    intro s f g
    simp [regenProcessGo]
  | cons r rest ih =>
    intro s f g
    match r with
    | .error e =>
      simp only [regenProcessGo, ih, List.length_cons]
      omega
    | .ok (key, text) =>
      by_cases h : text = ""
      · simp only [regenProcessGo, h, ih, List.length_cons, ne_eq, not_true_eq_false,
          if_false]
        omega
      · simp only [regenProcessGo, ih, List.length_cons, ne_eq, h, not_false_eq_true,
          if_true]
        omega

theorem regenProcessGo_lookup_untouched
    (results : List (Except String (String × String))) (k : String) :
    k ∉ results.filterMap okKeyOf →
    ∀ s f g, lookup (regenProcessGo results s f g).2.2 k = lookup g k := by
  induction results with
  | nil =>
    intro _ s f g
    rfl
  | cons r rest ih =>
    intro hk s f g
    match r with
    | .error e =>
      simp only [List.filterMap_cons, okKeyOf] at hk
      exact ih hk s (f + 1) g
    | .ok (key, text) =>
      simp only [List.filterMap_cons, okKeyOf, List.mem_cons] at hk
      push_neg at hk
      obtain ⟨hk1, hk2⟩ := hk
      by_cases h : text = ""
      · simp only [regenProcessGo, h, ne_eq, not_true_eq_false, if_false]
        exact ih hk2 s (f + 1) g
      · simp only [regenProcessGo, ne_eq, h, not_false_eq_true, if_true]
        rw [ih hk2 (s + 1) f (dictSet g key text),
          lookup_dictSet_ne g key text k hk1]

theorem regenProcessGo_entry (results : List (Except String (String × String)))
    (hnd : (results.filterMap okKeyOf).Nodup) (k t : String)
    (hmem : Except.ok (k, t) ∈ results) (ht : t ≠ "") :
    ∀ s f g, lookup (regenProcessGo results s f g).2.2 k = some t := by
  induction results with
  | nil => cases hmem
  | cons r rest ih =>
    intro s f g
    rcases List.mem_cons.mp hmem with heq | hmem'
    · subst heq
      simp only [List.filterMap_cons, okKeyOf, List.nodup_cons] at hnd
      obtain ⟨hk, hndrest⟩ := hnd
      simp only [regenProcessGo, ne_eq, ht, not_false_eq_true, if_true]
      rw [regenProcessGo_lookup_untouched rest k hk (s + 1) f (dictSet g k t),
        lookup_dictSet_self]
    · match r with
      | .error e =>
        simp only [List.filterMap_cons, okKeyOf] at hnd
        exact ih hnd hmem' s (f + 1) g
      | .ok (key, text) =>
        simp only [List.filterMap_cons, okKeyOf, List.nodup_cons] at hnd
        obtain ⟨_, hndrest⟩ := hnd
        by_cases h : text = ""
        · simp only [regenProcessGo, h, ne_eq, not_true_eq_false, if_false]
          exact ih hndrest hmem' s (f + 1) g
        · simp only [regenProcessGo, ne_eq, h, not_false_eq_true, if_true]
          exact ih hndrest hmem' (s + 1) f (dictSet g key text)

/-- C3: in both batch scripts a caught per-item failure only skips that item.
The timecode loop equals "initial results, plus one appended entry per
successfully aligned item", so failed or skipped items change nothing else;
the regeneration collector accounts every gathered task as a success or a
failure, and every task that produced text keeps its entry in the output
table regardless of the other tasks' failures. -/
theorem per_item_failure_isolation
    (align : String → String → Except String String) (audio_files : Table)
    (audioExists : String → Bool) (audio_folder : String)
    (initial : TimecodeResults) (texts : Table)
    (hnd : (texts.map Prod.fst).Nodup)
    (results : List (Except String (String × String)))
    (hnd2 : (results.filterMap okKeyOf).Nodup) :
    timecodeRun align audio_files audioExists audio_folder initial texts
      = initial ++
          texts.filterMap
            (timecodeItem align audio_files audioExists audio_folder initial) ∧
    (regenProcessResults results).1 + (regenProcessResults results).2.1
      = results.length ∧
    (∀ k t, Except.ok (k, t) ∈ results → t ≠ "" →
      lookup (regenProcessResults results).2.2 k = some t) := by
  refine ⟨?_, ?_, ?_⟩
  · have h := timecodeRun_foldl align audio_files audioExists audio_folder texts
      initial [] (fun kv _ => rfl) hnd
    simpa [timecodeRun] using h
  · simpa using regenProcessGo_counts results 0 0 []
  · intro k t hmem ht
    exact regenProcessGo_entry results hnd2 k t hmem ht 0 0 []

/-- Witness for C3 at a concrete batch in which the middle item's alignment
call fails and the middle gathered task failed. -/
theorem per_item_failure_isolation_witness :
    timecodeRun (fun _ t => if t = "bad" then Except.error "boom" else Except.ok "tc")
        [("text-1-0", "a.mp3"), ("text-1-1", "b.mp3"), ("text-1-2", "c.mp3")]
        (fun _ => true) "audio" []
        [("text-1-0", "ok0"), ("text-1-1", "bad"), ("text-1-2", "ok2")]
      = [] ++
          [("text-1-0", "ok0"), ("text-1-1", "bad"), ("text-1-2", "ok2")].filterMap
            (timecodeItem (fun _ t => if t = "bad" then Except.error "boom" else Except.ok "tc")
              [("text-1-0", "a.mp3"), ("text-1-1", "b.mp3"), ("text-1-2", "c.mp3")]
              (fun _ => true) "audio" []) ∧
    (regenProcessResults [Except.ok ("easyread-text-1-0", "g0"), Except.error "boom",
        Except.ok ("easyread-text-1-2", "g2")]).1 +
      (regenProcessResults [Except.ok ("easyread-text-1-0", "g0"), Except.error "boom",
        Except.ok ("easyread-text-1-2", "g2")]).2.1 = 3 ∧
    lookup (regenProcessResults [Except.ok ("easyread-text-1-0", "g0"), Except.error "boom",
        Except.ok ("easyread-text-1-2", "g2")]).2.2 "easyread-text-1-2" = some "g2" := by
  have h := per_item_failure_isolation
    (fun _ t => if t = "bad" then Except.error "boom" else Except.ok "tc")
    [("text-1-0", "a.mp3"), ("text-1-1", "b.mp3"), ("text-1-2", "c.mp3")]
    (fun _ => true) "audio" []
    [("text-1-0", "ok0"), ("text-1-1", "bad"), ("text-1-2", "ok2")] (by decide)
    [Except.ok ("easyread-text-1-0", "g0"), Except.error "boom",
      Except.ok ("easyread-text-1-2", "g2")] (by decide)
  exact ⟨h.1, h.2.1, h.2.2 "easyread-text-1-2" "g2" (by simp) (by decide)⟩


/-! ## C4: connection retry with linear backoff -/

inductive ConnectOutcome where
  | connected (attempt : Nat) (waits : List Nat)
  | exitProcess (code : Nat) (waits : List Nat)
deriving DecidableEq

/-- `max_retries = 3` in `calculate_timecodes_prog.py` line 77. -/
def max_retries : Nat := 3

/-- The retry loop of `calculate_timecodes_prog.py` (lines 80–100):
`for attempt in range(max_retries)`: try to connect; on failure, if this was
not the last attempt, sleep `(attempt + 1) * 5` seconds and retry, else
`sys.exit(1)`.  `succeeds n` tells whether the `n`-th (0-based) attempt
succeeds, `waits` accumulates the sleeps performed.  (The final `else`
corresponds to the `for` loop ending; it is unreachable for the script's
fixed `max_retries = 3`.) -/
def connectGo (succeeds : Nat → Bool) (maxRetries attempt : Nat)
    (waits : List Nat) : ConnectOutcome :=
  if _h : attempt < maxRetries then
    if succeeds attempt then .connected attempt waits
    else if attempt < maxRetries - 1 then
      connectGo succeeds maxRetries (attempt + 1) (waits ++ [(attempt + 1) * 5])
    else .exitProcess 1 waits
  else .exitProcess 1 waits
termination_by maxRetries - attempt
decreasing_by omega

def connect_with_retries (succeeds : Nat → Bool) : ConnectOutcome :=
  connectGo succeeds max_retries 0 []

/-- `main` after the connection phase: items are processed only when the
connection loop succeeded; on `sys.exit(1)` the accumulated results stay as
loaded. -/
def timecodeMain (succeeds : Nat → Bool)
    (align : String → String → Except String String) (audio_files : Table)
    (audioExists : String → Bool) (audio_folder : String)
    (initial : TimecodeResults) (texts : Table) :
    ConnectOutcome × TimecodeResults :=
  match connect_with_retries succeeds with
  | .connected a w =>
    (.connected a w, timecodeRun align audio_files audioExists audio_folder initial texts)
  | .exitProcess c w => (.exitProcess c w, initial)

/-- C4: the connection is attempted at most 3 times; after the i-th failed
attempt (i = 1, 2) the script sleeps 5·i seconds, and when all three
attempts fail it exits with status 1 having processed no item. -/
theorem connect_retry_linear_backoff :
    (∀ succeeds : Nat → Bool,
      connect_with_retries succeeds =
        if succeeds 0 then .connected 0 []
        else if succeeds 1 then .connected 1 [5]
        else if succeeds 2 then .connected 2 [5, 10]
        else .exitProcess 1 [5, 10]) ∧
    (∀ (succeeds : Nat → Bool)
        (align : String → String → Except String String) (audio_files : Table)
        (audioExists : String → Bool) (audio_folder : String)
        (initial : TimecodeResults) (texts : Table),
      succeeds 0 = false → succeeds 1 = false → succeeds 2 = false →
      timecodeMain succeeds align audio_files audioExists audio_folder initial texts
        = (.exitProcess 1 [5, 10], initial)) := by
  have hloop : ∀ succeeds : Nat → Bool,
      connect_with_retries succeeds =
        if succeeds 0 then .connected 0 []
        else if succeeds 1 then .connected 1 [5]
        else if succeeds 2 then .connected 2 [5, 10]
        else .exitProcess 1 [5, 10] := by
    intro succeeds
    by_cases h0 : succeeds 0 <;> by_cases h1 : succeeds 1 <;> by_cases h2 : succeeds 2 <;>
      simp [connect_with_retries, max_retries, connectGo, h0, h1, h2]
  refine ⟨hloop, ?_⟩
  intro succeeds align audio_files audioExists audio_folder initial texts h0 h1 h2
  rw [timecodeMain, hloop]
  simp [h0, h1, h2]

/-- Witness for C4: with every attempt failing, the script sleeps 5 then 10
seconds and exits with status 1, leaving the loaded results untouched. -/
theorem connect_retry_linear_backoff_witness :
    timecodeMain (fun _ => false) (fun _ _ => Except.error "down") [] (fun _ => false)
        "audio" [("text-1-0", ⟨"t", "a", "tc"⟩)] [("text-1-0", "t")]
      = (.exitProcess 1 [5, 10], [("text-1-0", ⟨"t", "a", "tc"⟩)]) :=
  connect_retry_linear_backoff.2 (fun _ => false) (fun _ _ => Except.error "down") []
    (fun _ => false) "audio" [("text-1-0", ⟨"t", "a", "tc"⟩)] [("text-1-0", "t")]
    rfl rfl rfl


/-! ## C5: the sequential translation run outputs an entry for every key -/

/-- The translator's context memory: (spanish, english, text id) triples. -/
abbrev TransContext := List (String × String × String)

def doubleQuoteChar : Char := '"'

def singleQuoteChar : Char := Char.ofNat 39

/-- One `startswith`/`endswith` quote-strip step of `translate_with_context`
(`translate_gpt5.py` lines 62–65): when the text both starts and ends with
the quote character, take `s[1:-1]`. -/
def stripQuotePair (q : Char) (cs : List Char) : List Char :=
  if [q].isPrefixOf cs && [q].isSuffixOf cs then (cs.drop 1).dropLast else cs

/-- `GPT5Translator.translate_with_context` (`translate_gpt5.py` lines
22–74): on API success, strip the response and one matching pair of double
then single quotes, append the triple to the context memory; on any caught
exception return the `[TRANSLATION ERROR: ...]` placeholder with the context
unchanged. -/
def translate_with_context
    (api : TransContext → String → String → Except String String)
    (ctx : TransContext) (spanish_text text_id : String) :
    String × TransContext :=
  match api ctx spanish_text text_id with
  | .ok raw =>
    let english := String.mk
      (stripQuotePair singleQuoteChar (stripQuotePair doubleQuoteChar (pyTrim raw.data)))
    (english, ctx ++ [(spanish_text, english, text_id)])
  | .error _ => ("[TRANSLATION ERROR: " ++ spanish_text ++ "]", ctx)

/-- `generate_sequential_translations` (`translate_gpt5.py` lines 124–148):
loop over the extracted texts in order, threading the context, and file
`english_translations[text_id]` for every processed key. -/
def generate_sequential_translations
    (api : TransContext → String → String → Except String String) (dry_run : Bool) :
    TransContext → Table → Table → Table × TransContext
  | ctx, acc, [] => (acc, ctx)
  | ctx, acc, (text_id, spanish_text) :: rest =>
    if dry_run then
      generate_sequential_translations api dry_run ctx
        (dictSet acc text_id ("[DRY RUN] Would translate: " ++ spanish_text)) rest
    else
      let r := translate_with_context api ctx spanish_text text_id
      generate_sequential_translations api dry_run r.2 (dictSet acc text_id r.1) rest

theorem map_fst_dictSet_of_not_mem (acc : Table) (k v : String)
    (h : hasKey acc k = false) :
    (dictSet acc k v).map Prod.fst = acc.map Prod.fst ++ [k] := by
  unfold dictSet
  rw [h]
  simp

theorem generate_sequential_translations_keys
    (api : TransContext → String → String → Except String String)
    (dry_run : Bool) (texts : Table) :
    ∀ (ctx : TransContext) (acc : Table),
      (texts.map Prod.fst).Nodup →
      (∀ kv ∈ texts, hasKey acc kv.1 = false) →
      ((generate_sequential_translations api dry_run ctx acc texts).1).map Prod.fst
        = acc.map Prod.fst ++ texts.map Prod.fst := by
  induction texts with
  | nil =>
    intro ctx acc _ _
    simp [generate_sequential_translations]
  | cons kv rest ih =>
    intro ctx acc hnd hdisj
    obtain ⟨text_id, spanish_text⟩ := kv
    simp only [List.map_cons, List.nodup_cons] at hnd
    obtain ⟨hid, hndrest⟩ := hnd
    have hacc : hasKey acc text_id = false := hdisj (text_id, spanish_text) (List.mem_cons_self _ _)
    have hdisj' : ∀ (v : String) (kv' : String × String), kv' ∈ rest →
        hasKey (dictSet acc text_id v) kv'.1 = false := by
      intro v kv' hkv'
      cases hh : hasKey (dictSet acc text_id v) kv'.1
      · rfl
      · rcases (hasKey_dictSet acc text_id v kv'.1).mp hh with hc | hc
        · exact absurd (hc ▸ List.mem_map_of_mem Prod.fst hkv') hid
        · rw [hdisj kv' (List.mem_cons_of_mem _ hkv')] at hc
          cases hc
    rcases Bool.eq_false_or_eq_true dry_run with hdry | hdry
    · subst hdry
      have hstep : generate_sequential_translations api true ctx acc
          ((text_id, spanish_text) :: rest)
          = generate_sequential_translations api true ctx
              (dictSet acc text_id ("[DRY RUN] Would translate: " ++ spanish_text))
              rest := rfl
      rw [hstep, ih ctx _ hndrest (hdisj' _),
        map_fst_dictSet_of_not_mem acc text_id _ hacc]
      simp
    · subst hdry
      have hstep : generate_sequential_translations api false ctx acc
          ((text_id, spanish_text) :: rest)
          = generate_sequential_translations api false
              (translate_with_context api ctx spanish_text text_id).2
              (dictSet acc text_id (translate_with_context api ctx spanish_text text_id).1)
              rest := rfl
      rw [hstep, ih _ _ hndrest (hdisj' _),
        map_fst_dictSet_of_not_mem acc text_id _ hacc]
      simp

/-- C5: every extracted key gets an output entry: on API success the entry is
the post-processed translation, on a caught exception it is the
`[TRANSLATION ERROR: <original text>]` placeholder, and the output table of a
(non-dry) sequential run has exactly the processed keys. -/
theorem sequential_translation_totality
    (api : TransContext → String → String → Except String String) :
    (∀ ctx s id err, api ctx s id = .error err →
      (translate_with_context api ctx s id).1 = "[TRANSLATION ERROR: " ++ s ++ "]") ∧
    (∀ ctx s id raw, api ctx s id = .ok raw →
      (translate_with_context api ctx s id).1
        = String.mk (stripQuotePair singleQuoteChar
            (stripQuotePair doubleQuoteChar (pyTrim raw.data)))) ∧
    (∀ (ctx : TransContext) (texts : Table), (texts.map Prod.fst).Nodup →
      ((generate_sequential_translations api false ctx [] texts).1).map Prod.fst
        = texts.map Prod.fst) := by
  refine ⟨?_, ?_, ?_⟩
  · intro ctx s id err h
    simp [translate_with_context, h]
  · intro ctx s id raw h
    simp [translate_with_context, h]
  · intro ctx texts hnd
    have h := generate_sequential_translations_keys api false texts ctx [] hnd
      (fun kv _ => rfl)
    simpa using h

/-- Witness for C5 with an API that fails on the text `falla` and answers
with a quoted string otherwise. -/
theorem sequential_translation_totality_witness :
    (translate_with_context
        (fun _ s _ => if s = "falla" then Except.error "boom" else Except.ok " \"hola\" ")
        [] "falla" "text-1-0").1 = "[TRANSLATION ERROR: " ++ "falla" ++ "]" ∧
    ((generate_sequential_translations
        (fun _ s _ => if s = "falla" then Except.error "boom" else Except.ok " \"hola\" ")
        false [] [] [("text-1-0", "hola"), ("text-1-1", "falla")]).1).map Prod.fst
      = [("text-1-0", "hola"), ("text-1-1", "falla")].map Prod.fst := by
  have h := sequential_translation_totality
    (fun _ s _ => if s = "falla" then Except.error "boom" else Except.ok " \"hola\" ")
  exact ⟨h.1 [] "falla" "text-1-0" "boom" rfl,
    h.2.2 [] [("text-1-0", "hola"), ("text-1-1", "falla")] (by decide)⟩


/-! ## C6: the batch regeneration bounds in-flight API calls by 10 -/

/-- Phase of one `generate_text` task: not yet at the semaphore, holding it
with its request in flight, or finished (the empty-text early return of
lines 207–209 finishes without ever touching the semaphore). -/
inductive TaskPhase where
  | ready
  | inFlight
  | done
deriving DecidableEq

/-- `self.max_concurrent_requests = 10` (`regenerate_text.py` line 45). -/
def max_concurrent_requests : Nat := 10

/-- Interleaving state of a batch run: the internal counter of
`asyncio.Semaphore(self.max_concurrent_requests)` (line 46) and the phase of
each spawned `generate_text` task. -/
structure RegenState where
  semCount : Nat
  phases : List TaskPhase
deriving DecidableEq

def countInFlight (s : RegenState) : Nat :=
  s.phases.countP (fun t => t = TaskPhase.inFlight)

/-- Event-level semantics of `generate_text` (lines 203–245) under
`async with self.semaphore`: a task issues its request only after acquiring
the semaphore with a positive counter; leaving the `async with` block —
normally or through the caught exception — releases it; an empty-text task
returns early without acquiring. -/
inductive RegenStep : RegenState → RegenState → Prop where
  | acquire (c : Nat) (ph : List TaskPhase) (i : Nat)
      (hi : ph.get? i = some .ready) :
      RegenStep ⟨c + 1, ph⟩ ⟨c, ph.set i .inFlight⟩
  | release (c : Nat) (ph : List TaskPhase) (i : Nat)
      (hi : ph.get? i = some .inFlight) :
      RegenStep ⟨c, ph⟩ ⟨c + 1, ph.set i .done⟩
  | skipEmpty (c : Nat) (ph : List TaskPhase) (i : Nat)
      (hi : ph.get? i = some .ready) :
      RegenStep ⟨c, ph⟩ ⟨c, ph.set i .done⟩

/-- Start of a run with `n` spawned tasks. -/
def initState (n : Nat) : RegenState :=
  ⟨max_concurrent_requests, List.replicate n .ready⟩

inductive RegenReachable : RegenState → Prop where
  | init (n : Nat) : RegenReachable (initState n)
  | step {s s' : RegenState} : RegenReachable s → RegenStep s s' → RegenReachable s'

theorem countP_set_of (p : TaskPhase → Bool) :
    ∀ (ph : List TaskPhase) (i : Nat) (a b : TaskPhase),
      ph.get? i = some a →
      (ph.set i b).countP p + (if p a then 1 else 0)
        = ph.countP p + (if p b then 1 else 0) := by
  intro ph
  induction ph with
  | nil =>
    intro i a b h
    cases h
  | cons hd t ih =>
    intro i a b h
    cases i with
    | zero =>
      cases h
      simp only [List.set, List.countP_cons]
      omega
    | succ i =>
      simp only [List.get?_cons_succ] at h
      simp only [List.set, List.countP_cons]
      have := ih i a b h
      omega

theorem regen_invariant (s : RegenState) (h : RegenReachable s) :
    countInFlight s + s.semCount = max_concurrent_requests := by
  induction h with
  | init n =>
    have hz : (List.replicate n TaskPhase.ready).countP
        (fun t => t = TaskPhase.inFlight) = 0 := by
      rw [List.countP_eq_zero]
      intro a ha
      rw [List.eq_of_mem_replicate ha]
      decide
    simp [countInFlight, initState, hz]
  | step _ hstep ih =>
    cases hstep with
    | acquire c ph i hi =>
      have hc := countP_set_of (fun t => t = TaskPhase.inFlight) ph i .ready .inFlight hi
      simp only [countInFlight] at ih ⊢
      simp at hc
      omega
    | release c ph i hi =>
      have hc := countP_set_of (fun t => t = TaskPhase.inFlight) ph i .inFlight .done hi
      simp only [countInFlight] at ih ⊢
      simp at hc
      omega
    | skipEmpty c ph i hi =>
      have hc := countP_set_of (fun t => t = TaskPhase.inFlight) ph i .ready .done hi
      simp only [countInFlight] at ih ⊢
      simp at hc
      omega

/-- C6: in every reachable state of a batch run the number of in-flight API
calls plus the semaphore counter equals 10, so at most 10 calls are in
flight simultaneously. -/
theorem semaphore_bounds_in_flight (s : RegenState) (h : RegenReachable s) :
    countInFlight s + s.semCount = max_concurrent_requests ∧
    countInFlight s ≤ max_concurrent_requests := by
  have hinv := regen_invariant s h
  exact ⟨hinv, by omega⟩

/-- Witness for C6: the initial state of a three-task run. -/
theorem semaphore_bounds_in_flight_witness :
    countInFlight (initState 3) + (initState 3).semCount = max_concurrent_requests ∧
    countInFlight (initState 3) ≤ max_concurrent_requests :=
  semaphore_bounds_in_flight (initState 3) (RegenReachable.init 3)


/-! ## C7: interruption saves all accumulated results before exiting 0 -/

/-- Observable effects of the timecode script's interrupt path, in order. -/
inductive ScriptEvent where
  | printMsg (s : String)
  | writeFile (name : String) (contents : TimecodeResults)
  | exitProcess (code : Nat)
deriving DecidableEq

/-- `save_results` (`calculate_timecodes_prog.py` lines 25–30): print, dump
the whole accumulated `timecode_results` mapping to `output_file`, print. -/
def save_results (output_file : String) (timecode_results : TimecodeResults) :
    List ScriptEvent :=
  [.printMsg ("Saving progress to " ++ output_file ++ "..."),
   .writeFile output_file timecode_results,
   .printMsg ("Progress saved with " ++ toString timecode_results.length ++ " entries.")]

/-- `signal_handler` (lines 32–36): print, save all current results,
`sys.exit(0)`. -/
def signal_handler (output_file : String) (timecode_results : TimecodeResults) :
    List ScriptEvent :=
  .printMsg "\nInterrupted! Saving progress before exiting..."
    :: save_results output_file timecode_results ++ [.exitProcess 0]

def SIGINT : Nat := 2

def SIGTERM : Nat := 15

/-- The handler installation of `main`
(`signal.signal(...)`, lines 42–43): both SIGINT and SIGTERM dispatch to
`signal_handler`; no other signal is handled. -/
def installedHandler (sig : Nat) :
    Option (String → TimecodeResults → List ScriptEvent) :=
  if sig = SIGINT || sig = SIGTERM then some signal_handler else none

/-- C7: on SIGINT or SIGTERM the installed handler runs `signal_handler`,
whose trace writes the whole accumulated result mapping to the output file
strictly before the one and only exit event, and that exit carries status 0. -/
theorem interrupt_saves_before_exit (sig : Nat)
    (hsig : sig = SIGINT ∨ sig = SIGTERM)
    (output_file : String) (results : TimecodeResults) :
    installedHandler sig = some signal_handler ∧
    (signal_handler output_file results).get? 2
      = some (.writeFile output_file results) ∧
    (signal_handler output_file results).get? 4 = some (.exitProcess 0) ∧
    (∀ k c, (signal_handler output_file results).get? k
      = some (.exitProcess c) → k = 4 ∧ c = 0) := by
  refine ⟨?_, rfl, rfl, ?_⟩
  · rcases hsig with h | h <;> simp [installedHandler, h, SIGINT, SIGTERM]
  · intro k c h
    simp only [signal_handler, save_results, List.cons_append, List.nil_append] at h
    match k with
    | 0 => simp [List.get?] at h
    | 1 => simp [List.get?] at h
    | 2 => simp [List.get?] at h
    | 3 => simp [List.get?] at h
    | 4 =>
      simp [List.get?] at h
      exact ⟨rfl, h.symm⟩
    | n + 5 => simp [List.get?] at h

/-- Witness for C7 at SIGINT with one accumulated entry. -/
theorem interrupt_saves_before_exit_witness :
    installedHandler 2 = some signal_handler ∧
    (signal_handler "timecode_output.json" [("text-1-0", ⟨"t", "a", "tc"⟩)]).get? 2
      = some (.writeFile "timecode_output.json" [("text-1-0", ⟨"t", "a", "tc"⟩)]) ∧
    (signal_handler "timecode_output.json" [("text-1-0", ⟨"t", "a", "tc"⟩)]).get? 4
      = some (.exitProcess 0) ∧
    (∀ k c, (signal_handler "timecode_output.json"
        [("text-1-0", ⟨"t", "a", "tc"⟩)]).get? k
      = some (.exitProcess c) → k = 4 ∧ c = 0) :=
  interrupt_saves_before_exit 2 (Or.inl rfl) "timecode_output.json"
    [("text-1-0", ⟨"t", "a", "tc"⟩)]


/-! ## C8: JSON writing of texts tables

`json.dump(data, f, ensure_ascii=False, indent=2)` as used by
`generate-eli5.py` (`save_i18n_files`), `regenerate_text.py`
(`save_generated_texts`) and `calculate_timecodes_prog.py` (`save_results`);
`translate_gpt5.py`'s `save_json_file` (lines 88–92) additionally passes
`sort_keys=True`.  We render to the character sequence of the written file
and model `json.load` by a parser of the flat string-table grammar the
scripts write. -/

def hexDigitChar (n : Nat) : Char :=
  if n < 10 then Char.ofNat (48 + n) else Char.ofNat (87 + n)

/-- The escaping `json.dump` (with `ensure_ascii=False`) applies to one
character of a string: `"` and `\` are backslash-escaped, the named control
characters use short forms, other control characters use `\u00XY`, everything
else — in particular every non-ASCII character — is written verbatim. -/
def escapeJsonChar (c : Char) : List Char :=
  if c = '"' then ['\\', '"']
  else if c = '\\' then ['\\', '\\']
  else if c = '\n' then ['\\', 'n']
  else if c = '\t' then ['\\', 't']
  else if c = '\r' then ['\\', 'r']
  else if c = Char.ofNat 8 then ['\\', 'b']
  else if c = Char.ofNat 12 then ['\\', 'f']
  else if c.toNat < 32 then
    ['\\', 'u', '0', '0', hexDigitChar (c.toNat / 16), hexDigitChar (c.toNat % 16)]
  else [c]

def renderJsonString (s : String) : List Char :=
  '"' :: s.data.flatMap escapeJsonChar ++ ['"']

def renderEntry (kv : String × String) : List Char :=
  renderJsonString kv.1 ++ ':' :: ' ' :: renderJsonString kv.2

def renderSep : Table → List Char
  | [] => ['\n', '}']
  | kv :: rest => ',' :: '\n' :: ' ' :: ' ' :: (renderEntry kv ++ renderSep rest)

def renderTable : Table → List Char
  | [] => ['{', '}']
  | kv :: rest => '{' :: '\n' :: ' ' :: ' ' :: (renderEntry kv ++ renderSep rest)

/-- The file contents written by `json.dump(..., ensure_ascii=False, indent=2)`. -/
def serializeTable (t : Table) : String := String.mk (renderTable t)

/-- `sort_keys=True`: members ordered by key. -/
def sortByKey (t : Table) : Table := t.mergeSort (fun a b => a.1 ≤ b.1)

/-- `save_json_file` of `translate_gpt5.py` (lines 88–92). -/
def save_json_file (t : Table) : String := serializeTable (sortByKey t)

def isJsonWs (c : Char) : Bool := c = ' ' || c = '\t' || c = '\n' || c = '\r'

def skipWs (cs : List Char) : List Char := cs.dropWhile isJsonWs

def hexVal (c : Char) : Option Nat :=
  if '0' ≤ c ∧ c ≤ '9' then some (c.toNat - 48)
  else if 'a' ≤ c ∧ c ≤ 'f' then some (c.toNat - 87)
  else if 'A' ≤ c ∧ c ≤ 'F' then some (c.toNat - 55)
  else none

def unescapeSimple (c : Char) : Option Char :=
  if c = '"' then some '"'
  else if c = '\\' then some '\\'
  else if c = '/' then some '/'
  else if c = 'b' then some (Char.ofNat 8)
  else if c = 'f' then some (Char.ofNat 12)
  else if c = 'n' then some '\n'
  else if c = 'r' then some '\r'
  else if c = 't' then some '\t'
  else none

/-- JSON string-body parser (position just after the opening quote): decoded
characters plus the input remaining after the closing quote.  Raw control
characters are rejected, as `json.load` does in strict mode. -/
def parseStringBody : List Char → Option (List Char × List Char)
  | [] => none
  | c :: rest =>
    if c = '"' then some ([], rest)
    else if c = '\\' then
      match rest with
      | [] => none
      | e :: rest2 =>
        if e = 'u' then
          match rest2 with
          | h1 :: h2 :: h3 :: h4 :: rest3 =>
            match hexVal h1, hexVal h2, hexVal h3, hexVal h4 with
            | some a, some b, some x, some d =>
              (parseStringBody rest3).map
                (fun r => (Char.ofNat (((a * 16 + b) * 16 + x) * 16 + d) :: r.1, r.2))
            | _, _, _, _ => none
          | _ => none
        else
          match unescapeSimple e with
          | some x => (parseStringBody rest2).map (fun r => (x :: r.1, r.2))
          | none => none
    else if c.toNat < 32 then none
    else (parseStringBody rest).map (fun r => (c :: r.1, r.2))

theorem length_dropWhile_le (p : Char → Bool) (l : List Char) :
    (l.dropWhile p).length ≤ l.length := by
  induction l with
  | nil => simp
  | cons a t ih =>
    rw [List.dropWhile_cons]
    split
    · exact Nat.le_trans ih (Nat.le_succ _)
    · exact Nat.le_refl _

theorem parseStringBody_length :
    ∀ (n : Nat) (cs : List Char), cs.length ≤ n → ∀ out rest,
      parseStringBody cs = some (out, rest) → rest.length < cs.length := by
  intro n
  induction n with
  | zero =>
    intro cs hlen out rest h
    match cs with
    | [] => simp [parseStringBody] at h
    | _ :: _ => simp at hlen
  | succ n ih =>
    intro cs hlen out rest h
    match cs with
    | [] => simp [parseStringBody] at h
    | c :: cs1 =>
      unfold parseStringBody at h
      by_cases h1 : c = '"'
      · simp only [h1, if_pos rfl] at h
        cases h
        simp
      · rw [if_neg h1] at h
        by_cases h2 : c = '\\'
        · rw [if_pos h2] at h
          match cs1 with
          | [] => simp at h
          | e :: cs2 =>
            simp only [] at h
            by_cases h3 : e = 'u'
            · rw [if_pos h3] at h
              match cs2 with
              | [] => simp at h
              | [x1] => simp at h
              | [x1, x2] => simp at h
              | [x1, x2, x3] => simp at h
              | x1 :: x2 :: x3 :: x4 :: cs3 =>
                simp only [] at h
                rcases hv1 : hexVal x1 with _ | a
                · rw [hv1] at h
                  simp at h
                rw [hv1] at h
                rcases hv2 : hexVal x2 with _ | b
                · rw [hv2] at h
                  simp at h
                rw [hv2] at h
                rcases hv3 : hexVal x3 with _ | x
                · rw [hv3] at h
                  simp at h
                rw [hv3] at h
                rcases hv4 : hexVal x4 with _ | d
                · rw [hv4] at h
                  simp at h
                rw [hv4] at h
                simp only [] at h
                rw [Option.map_eq_some'] at h
                obtain ⟨r, hr, hfr⟩ := h
                have hlt := ih cs3 (by simp at hlen ⊢; omega) r.1 r.2 (by rw [hr])
                cases hfr
                simp only [List.length_cons] at *
                omega
            · rw [if_neg h3] at h
              rcases hu : unescapeSimple e with _ | x
              · rw [hu] at h
                simp at h
              rw [hu] at h
              simp only [] at h
              rw [Option.map_eq_some'] at h
              obtain ⟨r, hr, hfr⟩ := h
              have hlt := ih cs2 (by simp at hlen ⊢; omega) r.1 r.2 (by rw [hr])
              cases hfr
              simp only [List.length_cons] at *
              omega
        · rw [if_neg h2] at h
          by_cases h4 : c.toNat < 32
          · rw [if_pos h4] at h
            cases h
          · rw [if_neg h4] at h
            rw [Option.map_eq_some'] at h
            obtain ⟨r, hr, hfr⟩ := h
            have hlt := ih cs1 (by simp at hlen ⊢; omega) r.1 r.2 (by rw [hr])
            cases hfr
            simp only [List.length_cons] at *
            omega


theorem parseStringBody_length' (cs : List Char) (out rest : List Char)
    (h : parseStringBody cs = some (out, rest)) : rest.length < cs.length :=
  parseStringBody_length cs.length cs (Nat.le_refl _) out rest h

/-- Member-sequence parser, at a position where a `"key": "value"` member is
expected; members accumulate in `acc` and parsing returns at the closing
brace. -/
def parseMembers (cs : List Char) (acc : Table) : Option (Table × List Char) :=
  match cs with
  | [] => none
  | c :: cs1 =>
    if c = '"' then
      match hk : parseStringBody cs1 with
      | none => none
      | some (kcs, cs2) =>
        match hs1 : skipWs cs2 with
        | [] => none
        | c2 :: cs3 =>
          if c2 = ':' then
            match hs2 : skipWs cs3 with
            | [] => none
            | c3 :: cs4 =>
              if c3 = '"' then
                match hv : parseStringBody cs4 with
                | none => none
                | some (vcs, cs5) =>
                  match hs3 : skipWs cs5 with
                  | [] => none
                  | c4 :: cs6 =>
                    if c4 = ',' then
                      parseMembers (skipWs cs6) (acc ++ [(String.mk kcs, String.mk vcs)])
                    else if c4 = '}' then
                      some (acc ++ [(String.mk kcs, String.mk vcs)], cs6)
                    else none
              else none
          else none
    else none
termination_by cs.length
decreasing_by
  have l1 := parseStringBody_length' _ kcs cs2 hk
  have l2 : (skipWs cs2).length ≤ cs2.length := length_dropWhile_le isJsonWs cs2
  rw [hs1] at l2
  have l3 : (skipWs cs3).length ≤ cs3.length := length_dropWhile_le isJsonWs cs3
  rw [hs2] at l3
  have l4 := parseStringBody_length' _ vcs cs5 hv
  have l5 : (skipWs cs5).length ≤ cs5.length := length_dropWhile_le isJsonWs cs5
  rw [hs3] at l5
  have l6 : (skipWs cs6).length ≤ cs6.length := length_dropWhile_le isJsonWs cs6
  simp only [List.length_cons] at *
  omega

/-- `json.load` on the flat string-table documents the scripts write: a
single object whose members are string-to-string pairs, with nothing but
whitespace around the tokens. -/
def parseTable (s : String) : Option Table :=
  match skipWs s.data with
  | [] => none
  | c :: cs =>
    if c = '{' then
      match skipWs cs with
      | [] => none
      | c2 :: cs2 =>
        if c2 = '}' then
          if (skipWs cs2).isEmpty then some [] else none
        else
          match parseMembers (c2 :: cs2) [] with
          | none => none
          | some (t, rest) => if (skipWs rest).isEmpty then some t else none
    else none

theorem skipWs_cons_neg (c : Char) (cs : List Char) (h : isJsonWs c = false) :
    skipWs (c :: cs) = c :: cs := by
  simp [skipWs, List.dropWhile_cons, h]

theorem skipWs_cons_pos (c : Char) (cs : List Char) (h : isJsonWs c = true) :
    skipWs (c :: cs) = skipWs cs := by
  simp [skipWs, List.dropWhile_cons, h]

theorem mk_data (s : String) : String.mk s.data = s := by
  cases s
  rfl

theorem hexVal_hexDigitChar (n : Nat) (h : n < 16) :
    hexVal (hexDigitChar n) = some n := by
  interval_cases n <;> decide

theorem parseStringBody_u (x1 x2 x3 x4 : Char) (a b x d : Nat) (rest : List Char)
    (e1 : hexVal x1 = some a) (e2 : hexVal x2 = some b) (e3 : hexVal x3 = some x)
    (e4 : hexVal x4 = some d) :
    parseStringBody ('\\' :: 'u' :: x1 :: x2 :: x3 :: x4 :: rest)
      = (parseStringBody rest).map
          (fun r => (Char.ofNat (((a * 16 + b) * 16 + x) * 16 + d) :: r.1, r.2)) := by
  conv_lhs => unfold parseStringBody
  simp [e1, e2, e3, e4]

theorem parseStringBody_simple_escape (e x : Char) (rest : List Char)
    (h : unescapeSimple e = some x) (hne : ¬e = 'u') :
    parseStringBody ('\\' :: e :: rest)
      = (parseStringBody rest).map (fun r => (x :: r.1, r.2)) := by
  conv_lhs => unfold parseStringBody
  rw [if_neg (by decide : ¬('\\' : Char) = '"'), if_pos (rfl : ('\\' : Char) = '\\')]
  simp only []
  rw [if_neg hne, h]

theorem parseStringBody_escape (c : Char) (rest : List Char) :
    parseStringBody (escapeJsonChar c ++ rest)
      = (parseStringBody rest).map (fun r => (c :: r.1, r.2)) := by
  by_cases h1 : c = '"'
  · subst h1
    rw [show escapeJsonChar '"' = ['\\', '"'] from by decide]
    simp only [List.cons_append, List.nil_append]
    rw [parseStringBody_simple_escape '"' '"' rest (by decide) (by decide)]
  by_cases h2 : c = '\\'
  · subst h2
    rw [show escapeJsonChar '\\' = ['\\', '\\'] from by decide]
    simp only [List.cons_append, List.nil_append]
    rw [parseStringBody_simple_escape '\\' '\\' rest (by decide) (by decide)]
  by_cases h3 : c = '\n'
  · subst h3
    rw [show escapeJsonChar '\n' = ['\\', 'n'] from by decide]
    simp only [List.cons_append, List.nil_append]
    rw [parseStringBody_simple_escape 'n' '\n' rest (by decide) (by decide)]
  by_cases h4 : c = '\t'
  · subst h4
    rw [show escapeJsonChar '\t' = ['\\', 't'] from by decide]
    simp only [List.cons_append, List.nil_append]
    rw [parseStringBody_simple_escape 't' '\t' rest (by decide) (by decide)]
  by_cases h5 : c = '\r'
  · subst h5
    rw [show escapeJsonChar '\r' = ['\\', 'r'] from by decide]
    simp only [List.cons_append, List.nil_append]
    rw [parseStringBody_simple_escape 'r' '\r' rest (by decide) (by decide)]
  by_cases h6 : c = Char.ofNat 8
  · subst h6
    rw [show escapeJsonChar (Char.ofNat 8) = ['\\', 'b'] from by decide]
    simp only [List.cons_append, List.nil_append]
    rw [parseStringBody_simple_escape 'b' (Char.ofNat 8) rest (by decide) (by decide)]
  by_cases h7 : c = Char.ofNat 12
  · subst h7
    rw [show escapeJsonChar (Char.ofNat 12) = ['\\', 'f'] from by decide]
    simp only [List.cons_append, List.nil_append]
    rw [parseStringBody_simple_escape 'f' (Char.ofNat 12) rest (by decide) (by decide)]
  by_cases h8 : c.toNat < 32
  · have hesc : escapeJsonChar c
        = ['\\', 'u', '0', '0', hexDigitChar (c.toNat / 16), hexDigitChar (c.toNat % 16)] := by
      unfold escapeJsonChar
      rw [if_neg h1, if_neg h2, if_neg h3, if_neg h4, if_neg h5, if_neg h6, if_neg h7,
        if_pos h8]
    rw [hesc]
    simp only [List.cons_append, List.nil_append]
    rw [parseStringBody_u '0' '0' _ _ 0 0 (c.toNat / 16) (c.toNat % 16) rest
      (by decide) (by decide) (hexVal_hexDigitChar _ (by omega))
      (hexVal_hexDigitChar _ (by omega))]
    have harith : (((0 * 16 + 0) * 16 + c.toNat / 16) * 16 + c.toNat % 16) = c.toNat := by
      omega
    rw [harith, Char.ofNat_toNat]
  · have hesc : escapeJsonChar c = [c] := by
      unfold escapeJsonChar
      rw [if_neg h1, if_neg h2, if_neg h3, if_neg h4, if_neg h5, if_neg h6, if_neg h7,
        if_neg h8]
    rw [hesc, List.singleton_append]
    conv_lhs => unfold parseStringBody
    rw [if_neg h1, if_neg h2, if_neg h8]

theorem parseStringBody_render (s : List Char) (rest : List Char) :
    parseStringBody (s.flatMap escapeJsonChar ++ '"' :: rest) = some (s, rest) := by
  induction s with
  | nil =>
    simp only [List.flatMap_nil, List.nil_append]
    conv_lhs => unfold parseStringBody
    rw [if_pos rfl]
  | cons c cs ih =>
    rw [List.flatMap_cons, List.append_assoc, parseStringBody_escape, ih]
    rfl

theorem renderEntry_append (kv : String × String) (X : List Char) :
    renderEntry kv ++ X
      = '"' :: (kv.1.data.flatMap escapeJsonChar
          ++ '"' :: ':' :: ' ' :: '"' :: (kv.2.data.flatMap escapeJsonChar
            ++ '"' :: X)) := by
  obtain ⟨k, v⟩ := kv
  simp [renderEntry, renderJsonString, List.append_assoc]

theorem parseMembers_render (rest : Table) :
    ∀ (kv : String × String) (acc : Table),
      parseMembers ('"' :: (kv.1.data.flatMap escapeJsonChar
          ++ '"' :: ':' :: ' ' :: '"' :: (kv.2.data.flatMap escapeJsonChar
            ++ '"' :: renderSep rest))) acc
        = some (acc ++ kv :: rest, []) := by
  induction rest with
  | nil =>
    intro kv acc
    obtain ⟨k, v⟩ := kv
    unfold parseMembers
    rw [if_pos rfl]
    split
    case _ heq =>
      rw [parseStringBody_render] at heq
      cases heq
    case _ kcs cs2 heq =>
      rw [parseStringBody_render] at heq
      simp only [Option.some.injEq, Prod.mk.injEq] at heq
      obtain ⟨rfl, rfl⟩ := heq
      rw [skipWs_cons_neg ':' _ (by decide)]
      split
      case _ heq2 => cases heq2
      case _ c2 cs3 heq2 =>
        cases heq2
        rw [if_pos rfl, skipWs_cons_pos ' ' _ (by decide), skipWs_cons_neg '"' _ (by decide)]
        split
        case _ heq3 => cases heq3
        case _ c3 cs4 heq3 =>
          cases heq3
          rw [if_pos rfl]
          split
          case _ heq4 =>
            rw [parseStringBody_render] at heq4
            cases heq4
          case _ vcs cs5 heq4 =>
            rw [parseStringBody_render] at heq4
            simp only [Option.some.injEq, Prod.mk.injEq] at heq4
            obtain ⟨rfl, rfl⟩ := heq4
            simp only [renderSep]
            rw [skipWs_cons_pos '\n' _ (by decide), skipWs_cons_neg '}' _ (by decide)]
            split
            case _ heq5 => cases heq5
            case _ c4 cs6 heq5 =>
              cases heq5
              rw [if_neg (by decide), if_pos rfl, mk_data, mk_data]
  | cons kv2 rest2 ih =>
    intro kv acc
    obtain ⟨k, v⟩ := kv
    unfold parseMembers
    rw [if_pos rfl]
    split
    case _ heq =>
      rw [parseStringBody_render] at heq
      cases heq
    case _ kcs cs2 heq =>
      rw [parseStringBody_render] at heq
      simp only [Option.some.injEq, Prod.mk.injEq] at heq
      obtain ⟨rfl, rfl⟩ := heq
      rw [skipWs_cons_neg ':' _ (by decide)]
      split
      case _ heq2 => cases heq2
      case _ c2 cs3 heq2 =>
        cases heq2
        rw [if_pos rfl, skipWs_cons_pos ' ' _ (by decide), skipWs_cons_neg '"' _ (by decide)]
        split
        case _ heq3 => cases heq3
        case _ c3 cs4 heq3 =>
          cases heq3
          rw [if_pos rfl]
          split
          case _ heq4 =>
            rw [parseStringBody_render] at heq4
            cases heq4
          case _ vcs cs5 heq4 =>
            rw [parseStringBody_render] at heq4
            simp only [Option.some.injEq, Prod.mk.injEq] at heq4
            obtain ⟨rfl, rfl⟩ := heq4
            simp only [renderSep]
            split
            case _ heq5 =>
              rw [skipWs_cons_neg ',' _ (by decide)] at heq5
              cases heq5
            case _ c4 cs6 heq5 =>
              rw [skipWs_cons_neg ',' _ (by decide)] at heq5
              cases heq5
              rw [if_pos rfl, skipWs_cons_pos '\n' _ (by decide),
                skipWs_cons_pos ' ' _ (by decide), skipWs_cons_pos ' ' _ (by decide),
                renderEntry_append, skipWs_cons_neg '"' _ (by decide),
                ih kv2 (acc ++ [(String.mk k.data, String.mk v.data)]), mk_data, mk_data]
              simp

theorem parseTable_serializeTable (t : Table) :
    parseTable (serializeTable t) = some t := by
  cases t with
  | nil => rfl
  | cons kv rest =>
    unfold parseTable serializeTable
    simp only [renderTable]
    split
    case _ heq =>
      rw [skipWs_cons_neg '{' _ (by decide)] at heq
      cases heq
    case _ c cs heq =>
      rw [skipWs_cons_neg '{' _ (by decide)] at heq
      cases heq
      rw [if_pos rfl]
      split
      case _ heq2 =>
        rw [skipWs_cons_pos '\n' _ (by decide), skipWs_cons_pos ' ' _ (by decide),
          skipWs_cons_pos ' ' _ (by decide), renderEntry_append,
          skipWs_cons_neg '"' _ (by decide)] at heq2
        cases heq2
      case _ c2 cs2 heq2 =>
        rw [skipWs_cons_pos '\n' _ (by decide), skipWs_cons_pos ' ' _ (by decide),
          skipWs_cons_pos ' ' _ (by decide), renderEntry_append,
          skipWs_cons_neg '"' _ (by decide)] at heq2
        cases heq2
        rw [if_neg (by decide)]
        split
        case _ heq3 =>
          rw [parseMembers_render rest kv []] at heq3
          cases heq3
        case _ t2 rest2 heq3 =>
          rw [parseMembers_render rest kv []] at heq3
          simp only [Option.some.injEq, Prod.mk.injEq, List.nil_append] at heq3
          obtain ⟨rfl, rfl⟩ := heq3
          rfl

theorem lookup_eq_some_iff_mem (d : Table) (hnd : (d.map Prod.fst).Nodup)
    (k v : String) :
    lookup d k = some v ↔ (k, v) ∈ d := by
  induction d with
  | nil => simp [lookup]
  | cons kv rest ih =>
    obtain ⟨k', v'⟩ := kv
    simp only [List.map_cons, List.nodup_cons] at hnd
    obtain ⟨hk', hnd'⟩ := hnd
    by_cases h : k' = k
    · subst h
      have hl : lookup ((k', v') :: rest) k' = some v' := by
        conv_lhs => unfold lookup
        rw [if_pos rfl]
      rw [hl]
      simp only [Option.some.injEq, List.mem_cons, Prod.mk.injEq, eq_self_iff_true,
        true_and]
      constructor
      · intro hv
        exact Or.inl hv.symm
      · rintro (hv | hmem)
        · exact hv.symm
        · exact absurd (List.mem_map_of_mem Prod.fst hmem) hk'
    · have hl : lookup ((k', v') :: rest) k = lookup rest k := by
        conv_lhs => unfold lookup
        rw [if_neg h]
      rw [hl, ih hnd']
      simp only [List.mem_cons, Prod.mk.injEq]
      constructor
      · intro hm
        exact Or.inr hm
      · rintro (⟨hkk, -⟩ | hmem)
        · exact absurd hkk.symm h
        · exact hmem

theorem lookup_perm_of_nodup (d d' : Table) (hperm : d.Perm d')
    (hnd : (d.map Prod.fst).Nodup) (k : String) :
    lookup d k = lookup d' k := by
  have hnd' : (d'.map Prod.fst).Nodup := ((hperm.map Prod.fst).nodup_iff).mp hnd
  cases hl : lookup d k with
  | none =>
    have hno := (lookup_eq_none_iff d k).mp hl
    symm
    rw [lookup_eq_none_iff]
    intro hmem
    exact hno ((hperm.map Prod.fst).mem_iff.mpr hmem)
  | some v =>
    have hm := (lookup_eq_some_iff_mem d hnd k v).mp hl
    symm
    rw [lookup_eq_some_iff_mem d' hnd' k v]
    exact hperm.mem_iff.mp hm

/-- C8: writing a texts table with `json.dump(..., ensure_ascii=False,
indent=2)` and reading it back is the identity — non-ASCII characters are
written verbatim — and the `sort_keys=True` writer of `translate_gpt5.py`
reads back to the key-sorted table, which as a mapping equals the original. -/
theorem json_write_read_round_trip (t u : Table)
    (hnd : (u.map Prod.fst).Nodup) :
    parseTable (serializeTable t) = some t ∧
    (∀ c : Char, 127 < c.toNat → escapeJsonChar c = [c]) ∧
    parseTable (save_json_file u) = some (sortByKey u) ∧
    (∀ k, lookup (sortByKey u) k = lookup u k) := by
  refine ⟨parseTable_serializeTable t, ?_, parseTable_serializeTable (sortByKey u), ?_⟩
  · intro c hc
    unfold escapeJsonChar
    rw [if_neg, if_neg, if_neg, if_neg, if_neg, if_neg, if_neg, if_neg]
    · omega
    all_goals intro hcc
    all_goals rw [hcc] at hc
    all_goals revert hc
    all_goals decide
  · intro k
    exact lookup_perm_of_nodup (sortByKey u) u (List.mergeSort_perm u _)
      (((List.mergeSort_perm u (fun a b => a.1 ≤ b.1)).map Prod.fst).nodup_iff.mpr hnd) k

/-- Witness for C8 at a concrete two-entry table with a non-ASCII value. -/
theorem json_write_read_round_trip_witness :
    parseTable (serializeTable [("text-1-0", "self-care"), ("text-1-1", "educación")])
      = some [("text-1-0", "self-care"), ("text-1-1", "educación")] ∧
    (∀ c : Char, 127 < c.toNat → escapeJsonChar c = [c]) ∧
    parseTable (save_json_file [("b", "2"), ("a", "1")])
      = some (sortByKey [("b", "2"), ("a", "1")]) ∧
    (∀ k, lookup (sortByKey [("b", "2"), ("a", "1")]) k = lookup [("b", "2"), ("a", "1")] k) := by
  have h1 := json_write_read_round_trip
    [("text-1-0", "self-care"), ("text-1-1", "educación")] [("b", "2"), ("a", "1")]
    (by decide)
  exact h1


/-! ## C9: find_pages groups pages into maximal consecutive runs -/

inductive TransCmd where
  | single (p : Nat)
  | range (s e : Nat)
deriving DecidableEq

/-- Emit `./translate.sh start` or `./translate.sh start end`
(`find_pages.py` lines 66–69 and 74–77). -/
def mkCmd (s e : Nat) : TransCmd := if s = e then .single s else .range s e

/-- The grouping loop of `find_pages.py` (lines 62–77) over the tail of the
sorted page list, carrying the current run `[start..e]`. -/
def groupGo (start e : Nat) : List Nat → List TransCmd
  | [] => [mkCmd start e]
  | p :: rest =>
    if p = e + 1 then groupGo start p rest
    else mkCmd start e :: groupGo p p rest

/-- The suggested-commands computation of `find_pages.py` `main` (the script
returns at line 34 before reaching it when no key matched). -/
def find_pages_ranges : List Nat → List TransCmd
  | [] => []
  | p :: rest => groupGo p p rest

/-- The sorted distinct page numbers of `find_pages.py` lines 21–37: pages of
keys matching `^text-(\d+)-(\d+)$`, deduplicated (dict keys) and sorted. -/
def find_pages_pageNumbers (data : Table) : List Nat :=
  ((data.filterMap (fun kv => (matchTextKey kv.1).map Prod.fst)).dedup).insertionSort (· ≤ ·)

def cmdPages : TransCmd → List Nat
  | .single p => [p]
  | .range s e => List.range' s (e - s + 1)

def cmdStart : TransCmd → Nat
  | .single p => p
  | .range s e => s

def cmdEnd : TransCmd → Nat
  | .single p => p
  | .range s e => e

theorem cmdPages_mkCmd (s e : Nat) (h : s ≤ e) :
    cmdPages (mkCmd s e) = List.range' s (e - s + 1) := by
  unfold mkCmd
  split
  case _ hse =>
    subst hse
    simp [cmdPages]
  case _ hse =>
    rfl

theorem cmdStart_mkCmd (s e : Nat) : cmdStart (mkCmd s e) = s := by
  unfold mkCmd
  split
  case _ hse => rw [hse]; rfl
  case _ hse => rfl

theorem cmdEnd_mkCmd (s e : Nat) : cmdEnd (mkCmd s e) = e := by
  unfold mkCmd
  split
  case _ hse => rw [hse]; rfl
  case _ hse => rfl

theorem mkCmd_single_iff (s e : Nat) : (∃ p, mkCmd s e = .single p) ↔ s = e := by
  unfold mkCmd
  split
  case _ hse => simp [hse]
  case _ hse =>
    simp only [iff_false, hse]
    rintro ⟨p, hp⟩
    cases hp

theorem groupGo_spec (rest : List Nat) :
    ∀ start e, start ≤ e → rest.Chain' (· < ·) →
    (∀ p, rest.head? = some p → e < p) →
    (groupGo start e rest).flatMap cmdPages = List.range' start (e - start + 1) ++ rest ∧
    (groupGo start e rest).Chain' (fun a b => cmdEnd a + 1 < cmdStart b) ∧
    (∀ c ∈ groupGo start e rest, cmdStart c ≤ cmdEnd c ∧
      (cmdStart c = cmdEnd c ↔ ∃ p, c = .single p)) ∧
    (∃ c tl, groupGo start e rest = c :: tl ∧ cmdStart c = start) := by
  induction rest with
  | nil =>
    intro start e hse _ _
    refine ⟨?_, ?_, ?_, mkCmd start e, [], rfl, cmdStart_mkCmd start e⟩
    · simp [groupGo, cmdPages_mkCmd start e hse]
    · simp [groupGo]
    · intro c hc
      simp only [groupGo, List.mem_singleton] at hc
      subst hc
      rw [cmdStart_mkCmd, cmdEnd_mkCmd, mkCmd_single_iff]
      exact ⟨hse, Iff.rfl⟩
  | cons p rest' ih =>
    intro start e hse hchain hhead
    have hep : e < p := hhead p rfl
    rw [List.chain'_cons'] at hchain
    obtain ⟨hhead', hchain'⟩ := hchain
    by_cases hpe : p = e + 1
    · have hstep : groupGo start e (p :: rest') = groupGo start p rest' := by
        conv_lhs => unfold groupGo
        rw [if_pos hpe]
      obtain ⟨hflat, hgap, hwf, hd⟩ := ih start p (by omega) hchain'
        (fun q hq => hhead' q hq)
      rw [hstep, hflat]
      refine ⟨?_, hgap, hwf, hd⟩
      have hlen : p - start + 1 = (e - start + 1) + 1 := by omega
      rw [hlen, List.range'_concat]
      have hpos : start + 1 * (e - start + 1) = p := by omega
      rw [hpos]
      simp
    · have hgt : e + 1 < p := by omega
      have hstep : groupGo start e (p :: rest') = mkCmd start e :: groupGo p p rest' := by
        conv_lhs => unfold groupGo
        rw [if_neg hpe]
      obtain ⟨hflat, hgap, hwf, c, tl, heq, hcs⟩ := ih p p (Nat.le_refl p) hchain'
        (fun q hq => hhead' q hq)
      rw [hstep]
      refine ⟨?_, ?_, ?_, mkCmd start e, groupGo p p rest', rfl, cmdStart_mkCmd start e⟩
      · rw [List.flatMap_cons, hflat, cmdPages_mkCmd start e hse]
        simp
      · rw [heq, List.chain'_cons, ← heq]
        exact ⟨by rw [cmdEnd_mkCmd, hcs]; omega, hgap⟩
      · intro c' hc'
        rcases List.mem_cons.mp hc' with hc' | hc'
        · subst hc'
          rw [cmdStart_mkCmd, cmdEnd_mkCmd, mkCmd_single_iff]
          exact ⟨hse, Iff.rfl⟩
        · exact hwf c' hc'

theorem find_pages_pageNumbers_sorted (data : Table) :
    (find_pages_pageNumbers data).Chain' (· < ·) := by
  unfold find_pages_pageNumbers
  have hs : List.Sorted (· ≤ ·)
      (((data.filterMap (fun kv => (matchTextKey kv.1).map Prod.fst)).dedup).insertionSort
        (· ≤ ·)) :=
    List.sorted_insertionSort _ _
  have hnd : (((data.filterMap (fun kv => (matchTextKey kv.1).map Prod.fst)).dedup).insertionSort
      (· ≤ ·)).Nodup :=
    (List.perm_insertionSort _ _).nodup_iff.mpr (List.nodup_dedup _)
  have hpw := List.Pairwise.and hs hnd
  exact List.Pairwise.chain' (hpw.imp (fun hab => Nat.lt_of_le_of_ne hab.1 hab.2))

/-- C9: the suggested translation commands partition the sorted distinct page
numbers into maximal runs of consecutive integers, emitted in increasing
order: concatenating the pages of the commands gives back exactly the page
list, adjacent commands are separated by a gap, and a command is a
single-page command exactly when its run has length one. -/
theorem find_pages_commands_partition (data : Table) (pages : List Nat)
    (hp : pages = find_pages_pageNumbers data) (hne : pages ≠ []) :
    (find_pages_ranges pages).flatMap cmdPages = pages ∧
    (find_pages_ranges pages).Chain' (fun a b => cmdEnd a + 1 < cmdStart b) ∧
    (∀ c ∈ find_pages_ranges pages, cmdStart c ≤ cmdEnd c ∧
      (cmdStart c = cmdEnd c ↔ ∃ q, c = .single q)) := by
  have hsorted : pages.Chain' (· < ·) := by
    rw [hp]
    exact find_pages_pageNumbers_sorted data
  match pages, hne with
  | p :: rest, _ =>
    rw [List.chain'_cons'] at hsorted
    obtain ⟨hhead, hchain⟩ := hsorted
    obtain ⟨hflat, hgap, hwf, -⟩ := groupGo_spec rest p p (Nat.le_refl p) hchain hhead
    have hranges : find_pages_ranges (p :: rest) = groupGo p p rest := rfl
    rw [hranges, hflat]
    refine ⟨?_, hgap, hwf⟩
    simp

/-- Witness for C9 on a table with pages {1, 2, 3, 5}: the commands are the
run 1–3 and the single page 5. -/
theorem find_pages_commands_partition_witness :
    (find_pages_ranges (find_pages_pageNumbers
        [("text-2-0", "a"), ("text-1-0", "b"), ("text-3-0", "c"), ("text-5-0", "d"),
         ("intro", "x")])).flatMap cmdPages
      = find_pages_pageNumbers
          [("text-2-0", "a"), ("text-1-0", "b"), ("text-3-0", "c"), ("text-5-0", "d"),
           ("intro", "x")] ∧
    (find_pages_ranges (find_pages_pageNumbers
        [("text-2-0", "a"), ("text-1-0", "b"), ("text-3-0", "c"), ("text-5-0", "d"),
         ("intro", "x")])).Chain' (fun a b => cmdEnd a + 1 < cmdStart b) ∧
    (∀ c ∈ find_pages_ranges (find_pages_pageNumbers
        [("text-2-0", "a"), ("text-1-0", "b"), ("text-3-0", "c"), ("text-5-0", "d"),
         ("intro", "x")]), cmdStart c ≤ cmdEnd c ∧
      (cmdStart c = cmdEnd c ↔ ∃ q, c = .single q)) :=
  find_pages_commands_partition
    [("text-2-0", "a"), ("text-1-0", "b"), ("text-3-0", "c"), ("text-5-0", "d"),
     ("intro", "x")] _ rfl (by decide)

/-! ## C10: the easy-read v2 'copy' strategy is the identity -/

/-- `len(text_stripped.split())` — Python `split()` splits on whitespace
runs and drops empty pieces; we count the maximal non-whitespace runs. -/
def pyWordCount (cs : List Char) : Nat :=
  (cs.foldl (fun (acc : Nat × Bool) c =>
    if isPySpace c then (acc.1, false)
    else if acc.2 then acc else (acc.1 + 1, true)) (0, false)).1

/-- The `simple_labels` list of `get_processing_strategy`
(`regenerate-easy-read-v2.py` line 144). -/
def simple_labels : List String :=
  ["true", "false", "myth:", "myth", "fact:", "fact", "yes", "no", "correct", "incorrect"]

def pyLower (cs : List Char) : List Char := cs.map Char.toLower

/-- `text_stripped.replace(' ', '').replace('.', '').replace(',', '').isdigit()`. -/
def isNumberOnly (cs : List Char) : Bool :=
  let cleaned := replaceChars [','] [] (replaceChars ['.'] [] (replaceChars [' '] [] cs))
  !cleaned.isEmpty && cleaned.all Char.isDigit

def headIsUpper (cs : List Char) : Bool :=
  match cs with
  | [] => false
  | c :: _ => c.isUpper

def endsWithChar (cs : List Char) (c : Char) : Bool := cs.getLast? = some c

/-- `text_stripped.startswith(('1.', ..., '9.'))`. -/
def startsWithNumberedItem (cs : List Char) : Bool :=
  match cs with
  | c :: d :: _ => ('1' ≤ c && c ≤ '9') && d = '.'
  | _ => false

/-- `get_processing_strategy` (`regenerate-easy-read-v2.py` lines 119–161):
returns the strategy and the reason string. -/
def get_processing_strategy (text : String) : String × String :=
  let text_stripped := pyTrim text.data
  let word_count := pyWordCount text_stripped
  if word_count ≤ 1 ∨ text_stripped.length ≤ 3 then ("copy", "Single word/very short")
  else if isNumberOnly text_stripped then ("copy", "Number only")
  else if String.mk (pyLower text_stripped) ∈ simple_labels then ("copy", "Simple label")
  else if word_count ≤ 4 ∧ text_stripped.length ≤ 30 ∧
      (headIsUpper text_stripped && !endsWithChar text_stripped '.' &&
        !endsWithChar text_stripped '!' && !endsWithChar text_stripped '?') = true then
    ("simple", "Short title/heading")
  else if startsWithNumberedItem text_stripped = true ∧ word_count ≤ 8 then
    ("simple", "Numbered list item")
  else if word_count ≤ 6 then ("simple", "Short phrase")
  else ("transform", "Complex text")

/-- `process_text_by_strategy` (`regenerate-easy-read-v2.py` lines 164–171
and the dispatch that follows): the `copy` branch returns the text
unchanged; `simple` runs the local emoji enhancement, `transform` the
OpenAI-backed `transform_to_easy_read`, both abstracted here as the
functions they are defined by elsewhere in the script. -/
def process_text_by_strategy (enhance transform : String → String)
    (text strategy : String) : String :=
  if strategy = "copy" then text
  else if strategy = "simple" then enhance text
  else if strategy = "transform" then transform text
  else text

/-- C10: for every text whose stripped form has at most one word, or at most
3 characters, or is digits-only modulo spaces/periods/commas, or is a simple
label, the chosen strategy is `copy` and processing returns the text
unchanged whatever the enhancement and transformation functions do — no API
call is involved. -/
theorem copy_strategy_identity (text : String)
    (h : pyWordCount (pyTrim text.data) ≤ 1 ∨ (pyTrim text.data).length ≤ 3 ∨
      isNumberOnly (pyTrim text.data) = true ∨
      String.mk (pyLower (pyTrim text.data)) ∈ simple_labels) :
    (get_processing_strategy text).1 = "copy" ∧
    (∀ enhance transform : String → String,
      process_text_by_strategy enhance transform text "copy" = text) := by
  refine ⟨?_, fun _ _ => rfl⟩
  simp only [get_processing_strategy]
  by_cases h1 : pyWordCount (pyTrim text.data) ≤ 1 ∨ (pyTrim text.data).length ≤ 3
  · rw [if_pos h1]
  · rw [if_neg h1]
    by_cases h2 : isNumberOnly (pyTrim text.data) = true
    · rw [if_pos h2]
    · rw [if_neg h2]
      have h3 : String.mk (pyLower (pyTrim text.data)) ∈ simple_labels := by
        rcases h with h | h | h | h
        · exact absurd (Or.inl h) h1
        · exact absurd (Or.inr h) h1
        · exact absurd h h2
        · exact h
      rw [if_pos h3]

/-- Witness for C10 on the digits-only text `"2 0 2 4"` and the label
`"Myth:"`. -/
theorem copy_strategy_identity_witness :
    (get_processing_strategy "2 0 2 4").1 = "copy" ∧
    (get_processing_strategy "Myth:").1 = "copy" ∧
    process_text_by_strategy (fun s => "E" ++ s) (fun _ => "API") "2 0 2 4" "copy"
      = "2 0 2 4" := by
  have hd := copy_strategy_identity "2 0 2 4" (Or.inr (Or.inr (Or.inl (by decide))))
  have hl := copy_strategy_identity "Myth:" (Or.inr (Or.inr (Or.inr (by decide))))
  exact ⟨hd.1, hl.1, hd.2 (fun s => "E" ++ s) (fun _ => "API")⟩

end ADT
